import Mathlib

/-!
Verification model of the signal alignment and segmentation pipeline of the
hpi-rpe-prediction repository.

The Python sources embedded here are:
* `calculate_cross_correlation_arrays` (data_processing.py) — discrete shift
  estimation by exhaustive sum-of-absolute-differences search over all
  alignments of a z-score-normalized target inside a z-score-normalized
  reference, returning `np.argmin` of the score list.
* `match_flywheel_data` (data_processing.py) — repetition-count
  reconciliation producing inclusion masks.
* `segment_exercises_based_on_joint` (src/processing/segmentation.py) —
  peak-based repetition segmentation with statistical validation, on top of
  scipy's `find_peaks` local-maxima search (plateau-aware, `height=0`).
* `prepare_segmented_data_for_ml` (data_processing.py) — per-trial batch
  assembly with per-trial exception containment.

Real-valued sequences are modelled as `List ℝ`.  Python/NumPy float
arithmetic is modelled by exact real arithmetic; Lean's total-division
convention `x / 0 = 0` replaces NumPy's NaN propagation, and the one spot
where a NaN comparison is semantically relevant (`np.std([]) < 100` is
`False` because `np.std([]) = nan`) is modelled by an explicit nonemptiness
guard.  External collaborators whose values never decide a claim (the
`fastdtw` cost and, where noted, the shift estimator call site) are taken
as function parameters of the embedding.
-/

noncomputable section

/-- First-occurrence argmin scan, as `np.argmin` behaves on a nonempty list:
keeps the current best and replaces it only on a strict improvement. -/
def argminAux {α : Type} [LinearOrder α] : List α → α → ℕ → ℕ → ℕ
  | [], _, _, best => best
  | x :: xs, m, idx, best =>
    if x < m then argminAux xs x (idx + 1) idx else argminAux xs m (idx + 1) best

/-- `np.argmin` on a list: `none` on the empty list (NumPy raises), otherwise
the index of the first occurrence of the minimum. -/
def argminIdx? {α : Type} [LinearOrder α] : List α → Option ℕ
  | [] => none
  | x :: xs => some (argminAux xs x 1 0)

theorem argminAux_spec {α : Type} [LinearOrder α] (l : List α) :
    ∀ (m : α) (idx best : ℕ),
      (argminAux l m idx best = best ∧ ∀ i (h : i < l.length), m ≤ l.get ⟨i, h⟩) ∨
      (∃ i, ∃ h : i < l.length, argminAux l m idx best = idx + i ∧ l.get ⟨i, h⟩ < m ∧
        (∀ j (hj : j < l.length), l.get ⟨i, h⟩ ≤ l.get ⟨j, hj⟩) ∧
        (∀ j (hj : j < i), l.get ⟨i, h⟩ < l.get ⟨j, Nat.lt_trans hj h⟩)) := by
  induction l with
  | nil =>
      intro m idx best
      left
      exact ⟨rfl, fun i h => absurd h (Nat.not_lt_zero i)⟩
  | cons x xs ih =>
      intro m idx best
      by_cases hx : x < m
      · rcases ih x (idx + 1) idx with ⟨heq, hall⟩ | ⟨i, hi, heq, hlt, hmin, hfirst⟩
        · right
          refine ⟨0, Nat.succ_pos _, ?_, ?_, ?_, ?_⟩
          · simpa [argminAux, hx] using heq
          · simpa using hx
          · intro j hj
            cases j with
            | zero => simp
            | succ j => simpa using hall j (Nat.lt_of_succ_lt_succ hj)
          · intro j hj
            exact absurd hj (Nat.not_lt_zero j)
        · right
          refine ⟨i + 1, Nat.succ_lt_succ hi, ?_, ?_, ?_, ?_⟩
          · simp only [argminAux, if_pos hx]
            rw [heq]; omega
          · simpa using lt_trans hlt hx
          · intro j hj
            cases j with
            | zero => simpa using le_of_lt hlt
            | succ j => simpa using hmin j (Nat.lt_of_succ_lt_succ hj)
          · intro j hj
            cases j with
            | zero => simpa using hlt
            | succ j => simpa using hfirst j (Nat.lt_of_succ_lt_succ hj)
      · rcases ih m (idx + 1) best with ⟨heq, hall⟩ | ⟨i, hi, heq, hlt, hmin, hfirst⟩
        · left
          constructor
          · simpa [argminAux, hx] using heq
          · intro j hj
            cases j with
            | zero => simpa using le_of_not_lt hx
            | succ j => simpa using hall j (Nat.lt_of_succ_lt_succ hj)
        · right
          refine ⟨i + 1, Nat.succ_lt_succ hi, ?_, ?_, ?_, ?_⟩
          · simp only [argminAux, if_neg hx]
            rw [heq]; omega
          · simpa using hlt
          · intro j hj
            cases j with
            | zero => simpa using le_of_lt (lt_of_lt_of_le hlt (le_of_not_lt hx))
            | succ j => simpa using hmin j (Nat.lt_of_succ_lt_succ hj)
          · intro j hj
            cases j with
            | zero => simpa using lt_of_lt_of_le hlt (le_of_not_lt hx)
            | succ j => simpa using hfirst j (Nat.lt_of_succ_lt_succ hj)

theorem argminIdx?_spec {α : Type} [LinearOrder α] (l : List α) (k : ℕ)
    (h : argminIdx? l = some k) :
    ∃ hk : k < l.length,
      (∀ j (hj : j < l.length), l.get ⟨k, hk⟩ ≤ l.get ⟨j, hj⟩) ∧
      (∀ j (hj : j < k), l.get ⟨k, hk⟩ < l.get ⟨j, Nat.lt_trans hj hk⟩) := by
  cases l with
  | nil => simp [argminIdx?] at h
  | cons x xs =>
      have hk : k = argminAux xs x 1 0 := by
        simpa [argminIdx?] using h.symm
      rcases argminAux_spec xs x 1 0 with ⟨heq, hall⟩ | ⟨i, hi, heq, hlt, hmin, hfirst⟩
      · subst hk
        rw [heq]
        refine ⟨Nat.succ_pos _, ?_, ?_⟩
        · intro j hj
          cases j with
          | zero => simp
          | succ j => simpa using hall j (Nat.lt_of_succ_lt_succ hj)
        · intro j hj
          exact absurd hj (Nat.not_lt_zero j)
      · subst hk
        rw [heq]
        have hik : 1 + i = i + 1 := Nat.add_comm 1 i
        rw [hik]
        refine ⟨Nat.succ_lt_succ hi, ?_, ?_⟩
        · intro j hj
          cases j with
          | zero => simpa using le_of_lt hlt
          | succ j => simpa using hmin j (Nat.lt_of_succ_lt_succ hj)
        · intro j hj
          cases j with
          | zero => simpa using hlt
          | succ j => simpa using hfirst j (Nat.lt_of_succ_lt_succ hj)

theorem argminIdx?_isSome {α : Type} [LinearOrder α] (l : List α) (h : l ≠ []) :
    ∃ k, argminIdx? l = some k := by
  cases l with
  | nil => exact absurd rfl h
  | cons x xs => exact ⟨argminAux xs x 1 0, rfl⟩

theorem argminIdx?_nil {α : Type} [LinearOrder α] : argminIdx? ([] : List α) = none := rfl

/-- `np.mean`: sum divided by length (Lean convention: `0 / 0 = 0` on `[]`,
where NumPy yields NaN). -/
def meanR (xs : List ℝ) : ℝ := xs.sum / xs.length

/-- `np.std` (population variance): mean of squared deviations. -/
def varR (xs : List ℝ) : ℝ := ((xs.map (fun v => (v - meanR xs) ^ 2)).sum) / xs.length

/-- `np.std`: square root of the population variance. -/
def stdR (xs : List ℝ) : ℝ := Real.sqrt (varR xs)

/-- `(xs - np.mean(xs)) / np.std(xs)`, the z-score normalization performed at
the top of `calculate_cross_correlation_arrays`. -/
def zscoreList (xs : List ℝ) : List ℝ := xs.map (fun v => (v - meanR xs) / stdR xs)

/-- `np.sum(np.abs(reference[shift:shift+len(target)] - target))`: the
sum-of-absolute-differences score of one alignment. -/
def sadAt (reference target : List ℝ) (shift : ℕ) : ℝ :=
  (((reference.drop shift).take target.length).zipWith (fun a b => |a - b|) target).sum

/-- The score of shift `j` as `calculate_cross_correlation_arrays` computes it:
sum of absolute differences between the z-scored slices. -/
def shiftScore (reference target : List ℝ) (j : ℕ) : ℝ :=
  sadAt (zscoreList reference) (zscoreList target) j

/-- The `diffs` list built by the `for shift in range(0, len(reference) -
len(target) + 1)` loop.  The range length is computed in `ℤ` and truncated at
zero, exactly as Python's `range` treats a non-positive bound. -/
def shiftScores (reference target : List ℝ) : List ℝ :=
  (List.range (((reference.length : ℤ) - target.length + 1).toNat)).map
    (fun s => shiftScore reference target s)

/-- `calculate_cross_correlation_arrays` (data_processing.py, lines 71–80):
z-score both sequences, score every alignment of the target inside the
reference by sum of absolute differences, return `np.argmin` of the scores
(`none` models the `ValueError` NumPy raises on an empty score list). -/
def calculate_cross_correlation_arrays (reference target : List ℝ) : Option ℕ :=
  argminIdx? (shiftScores reference target)

theorem shiftScores_length (reference target : List ℝ) :
    (shiftScores reference target).length =
      (((reference.length : ℤ) - target.length + 1)).toNat := by
  simp [shiftScores]

theorem shiftScores_get (reference target : List ℝ) (j : ℕ)
    (h : j < (shiftScores reference target).length) :
    (shiftScores reference target).get ⟨j, h⟩ = shiftScore reference target j := by
  simp [shiftScores]

theorem shiftScores_length_of_le (reference target : List ℝ)
    (h : target.length ≤ reference.length) :
    (shiftScores reference target).length = reference.length - target.length + 1 := by
  rw [shiftScores_length]
  omega

theorem shiftScores_eq_nil_of_lt (reference target : List ℝ)
    (h : reference.length < target.length) :
    shiftScores reference target = [] := by
  have : (((reference.length : ℤ) - target.length + 1)).toNat = 0 := by omega
  simp [shiftScores, this]

/-- Master lemma for the discrete shift estimator: whenever the reference is
at least as long as the target, the estimator succeeds, the returned shift is
a valid alignment offset, it attains the minimum sum-of-absolute-differences
score, and among all shifts attaining that score it is the least one (the
first-occurrence behavior of `np.argmin`). -/
theorem calculate_cross_correlation_arrays_spec (reference target : List ℝ)
    (h : target.length ≤ reference.length) :
    ∃ k, calculate_cross_correlation_arrays reference target = some k ∧
      k ≤ reference.length - target.length ∧
      (∀ j, j ≤ reference.length - target.length →
        shiftScore reference target k ≤ shiftScore reference target j) ∧
      (∀ j, j ≤ reference.length - target.length →
        shiftScore reference target j = shiftScore reference target k → k ≤ j) := by
  have hlen := shiftScores_length_of_le reference target h
  have hne : shiftScores reference target ≠ [] := by
    intro hnil
    rw [hnil] at hlen
    simp at hlen
  obtain ⟨k, hk⟩ := argminIdx?_isSome (shiftScores reference target) hne
  obtain ⟨hklt, hmin, hfirst⟩ := argminIdx?_spec _ _ hk
  refine ⟨k, hk, ?_, ?_, ?_⟩
  · omega
  · intro j hj
    have hjlt : j < (shiftScores reference target).length := by omega
    have := hmin j hjlt
    rwa [shiftScores_get, shiftScores_get] at this
  · intro j hj heq
    by_contra hkj
    have hjk : j < k := by omega
    have := hfirst j hjk
    rw [shiftScores_get, shiftScores_get] at this
    rw [heq] at this
    exact lt_irrefl _ this

theorem calculate_cross_correlation_arrays_none (reference target : List ℝ)
    (h : reference.length < target.length) :
    calculate_cross_correlation_arrays reference target = none := by
  unfold calculate_cross_correlation_arrays
  rw [shiftScores_eq_nil_of_lt reference target h]
  rfl

/-- Python slice assignment `l[i:i+len(ys)] = ys`. -/
def setSlice {α : Type} (l : List α) (i : ℕ) (ys : List α) : List α :=
  l.take i ++ ys ++ l.drop (i + ys.length)

/-- `pandas.Series.max` on a nonempty sequence (the empty case, NaN in
pandas, is given the junk value `0`; no claim depends on it). -/
def maxD : List ℝ → ℝ
  | [] => 0
  | x :: xs => xs.foldl max x

/-- A sequence divided by its own maximum, as in `flywheel_duration /
flywheel_duration.max()`. -/
def normByMax (xs : List ℝ) : List ℝ := xs.map (fun v => v / maxD xs)

/-- `match_flywheel_data` (data_processing.py, lines 48–68), with the shift
estimator at its single call site abstracted as the parameter `est` so that
which-function-is-invoked facts are expressible; the pipeline's instance
`match_flywheel_data` fixes `est := calculate_cross_correlation_arrays`.
Inputs are the two per-repetition scalar columns the source reads:
`flywheel_df["duration"]` and `pos_df["PELVIS (x)__length"]` (the latter is
divided by 30 before use, as in the source).  `none` models the unreachable
`ValueError` of an empty `np.argmin`. -/
def match_flywheel_data_core (est : List ℝ → List ℝ → Option ℕ)
    (flywheel_duration pos_length : List ℝ) : Option (List Bool × List Bool) :=
  if flywheel_duration.length = pos_length.length then
    some (List.replicate flywheel_duration.length true,
          List.replicate pos_length.length true)
  else
    let flywheel_mean := normByMax flywheel_duration
    let pos_mean := normByMax (pos_length.map (fun v => v / 30))
    let max_length := min flywheel_mean.length pos_mean.length
    if pos_mean.length < flywheel_mean.length then
      match est flywheel_mean pos_mean with
      | some shift =>
          some (setSlice (List.replicate flywheel_mean.length false) shift
                  (List.replicate max_length true),
                List.replicate pos_mean.length true)
      | none => none
    else
      match est pos_mean flywheel_mean with
      | some shift =>
          some (List.replicate flywheel_mean.length true,
                setSlice (List.replicate pos_mean.length false) shift
                  (List.replicate max_length true))
      | none => none

/-- `match_flywheel_data` as the pipeline runs it. -/
def match_flywheel_data (flywheel_duration pos_length : List ℝ) :
    Option (List Bool × List Bool) :=
  match_flywheel_data_core calculate_cross_correlation_arrays
    flywheel_duration pos_length

theorem normByMax_length (xs : List ℝ) : (normByMax xs).length = xs.length := by
  simp [normByMax]

theorem setSlice_replicate_false (n s m : ℕ) (h : s + m ≤ n) :
    setSlice (List.replicate n (false : Bool)) s (List.replicate m true) =
      List.replicate s false ++ List.replicate m true ++
        List.replicate (n - s - m) false := by
  unfold setSlice
  rw [List.take_replicate, List.drop_replicate, List.length_replicate]
  congr 1
  · congr 1
    congr 1
    omega
  · congr 1
    omega

/-- C3: when the two per-repetition tables have the same repetition count,
`match_flywheel_data` returns all-`True` masks of that length for both sides.
The statement quantifies over the shift estimator `est`: the result is the
same whatever the estimator would compute, i.e. the equal-length branch
neither invokes the discrete shift search nor normalizes the sequences. -/
theorem match_flywheel_data_equal_lengths
    (est : List ℝ → List ℝ → Option ℕ) (fw pos : List ℝ)
    (h : fw.length = pos.length) :
    match_flywheel_data_core est fw pos =
      some (List.replicate fw.length true, List.replicate pos.length true) := by
  unfold match_flywheel_data_core
  rw [if_pos h]

/-- Closed instance of the equal-count branch at an estimator that would
fail every search, showing the branch is insensitive to the search
entirely. -/
theorem match_flywheel_data_equal_lengths_witness :
    match_flywheel_data_core (fun _ _ => none) [1, 2, 3] [5, 6, 7] =
      some ([true, true, true], [true, true, true]) := by
  have h := match_flywheel_data_equal_lengths (fun _ _ => none)
    [1, 2, 3] [5, 6, 7] (by decide)
  simpa using h

/-- C2: with unequal nonzero repetition counts, the longer side's mask is a
single contiguous all-`True` run of length `min K R` starting at the shift
returned by the discrete estimator on the max-normalized duration sequences,
`False` elsewhere, and the shorter side's mask is all `True`. -/
theorem match_flywheel_data_unequal_lengths (fw pos : List ℝ)
    (hfw : 1 ≤ fw.length) (hpos : 1 ≤ pos.length)
    (hne : fw.length ≠ pos.length) :
    (pos.length < fw.length →
      ∃ s, calculate_cross_correlation_arrays (normByMax fw)
            (normByMax (pos.map (fun v => v / 30))) = some s ∧
        s + pos.length ≤ fw.length ∧
        match_flywheel_data fw pos = some
          (List.replicate s false ++ List.replicate pos.length true ++
             List.replicate (fw.length - s - pos.length) false,
           List.replicate pos.length true)) ∧
    (fw.length < pos.length →
      ∃ s, calculate_cross_correlation_arrays
            (normByMax (pos.map (fun v => v / 30))) (normByMax fw) = some s ∧
        s + fw.length ≤ pos.length ∧
        match_flywheel_data fw pos = some
          (List.replicate fw.length true,
           List.replicate s false ++ List.replicate fw.length true ++
             List.replicate (pos.length - s - fw.length) false)) := by
  have hfwlen : (normByMax fw).length = fw.length := normByMax_length fw
  have hposlen : (normByMax (pos.map (fun v => v / 30))).length = pos.length := by
    rw [normByMax_length, List.length_map]
  constructor
  · intro hlt
    have htle : (normByMax (pos.map (fun v => v / 30))).length ≤ (normByMax fw).length := by
      rw [hfwlen, hposlen]; exact le_of_lt hlt
    obtain ⟨s, hs, hrange, -, -⟩ :=
      calculate_cross_correlation_arrays_spec (normByMax fw)
        (normByMax (pos.map (fun v => v / 30))) htle
    rw [hfwlen, hposlen] at hrange
    refine ⟨s, hs, by omega, ?_⟩
    unfold match_flywheel_data match_flywheel_data_core
    rw [if_neg hne]
    simp only [hfwlen, hposlen]
    rw [if_pos hlt, hs]
    have hmin : min fw.length pos.length = pos.length := by omega
    simp [hmin, setSlice_replicate_false fw.length s pos.length (by omega)]
  · intro hlt
    have htle : (normByMax fw).length ≤ (normByMax (pos.map (fun v => v / 30))).length := by
      rw [hfwlen, hposlen]; exact le_of_lt hlt
    obtain ⟨s, hs, hrange, -, -⟩ :=
      calculate_cross_correlation_arrays_spec
        (normByMax (pos.map (fun v => v / 30))) (normByMax fw) htle
    rw [hfwlen, hposlen] at hrange
    refine ⟨s, hs, by omega, ?_⟩
    unfold match_flywheel_data match_flywheel_data_core
    rw [if_neg hne]
    simp only [hfwlen, hposlen]
    rw [if_neg (by omega : ¬ pos.length < fw.length), hs]
    have hmin : min fw.length pos.length = fw.length := by omega
    simp [hmin, setSlice_replicate_false pos.length s fw.length (by omega)]

/-- Closed instance of the unequal-count reconciliation with 5 flywheel
repetitions against 3 position repetitions. -/
theorem match_flywheel_data_unequal_lengths_witness :
    1 ≤ ([(1 : ℝ), 2, 3, 4, 5] : List ℝ).length ∧
    1 ≤ ([(2 : ℝ), 3, 4] : List ℝ).length ∧
    ([(1 : ℝ), 2, 3, 4, 5] : List ℝ).length ≠ ([(2 : ℝ), 3, 4] : List ℝ).length ∧
    ∃ s, calculate_cross_correlation_arrays (normByMax [(1 : ℝ), 2, 3, 4, 5])
          (normByMax (([(2 : ℝ), 3, 4] : List ℝ).map (fun v => v / 30))) = some s ∧
      s + 3 ≤ 5 ∧
      match_flywheel_data [(1 : ℝ), 2, 3, 4, 5] [(2 : ℝ), 3, 4] = some
        (List.replicate s false ++ List.replicate 3 true ++
           List.replicate (5 - s - 3) false,
         List.replicate 3 true) := by
  refine ⟨by decide, by decide, by decide, ?_⟩
  have h := (match_flywheel_data_unequal_lengths [(1 : ℝ), 2, 3, 4, 5] [(2 : ℝ), 3, 4]
    (by decide) (by decide) (by decide)).1 (by decide)
  simpa using h

/-- Helper: `match_flywheel_data` never fails, because in each unequal
branch the strictly longer normalized sequence is passed as the estimator's
reference, so the score list is nonempty and `np.argmin` succeeds. -/
theorem match_flywheel_data_isSome (fw pos : List ℝ) :
    (match_flywheel_data fw pos).isSome = true := by
  unfold match_flywheel_data match_flywheel_data_core
  by_cases hlen : fw.length = pos.length
  · rw [if_pos hlen]
    rfl
  · rw [if_neg hlen]
    have hfwlen : (normByMax fw).length = fw.length := normByMax_length fw
    have hposlen : (normByMax (pos.map (fun v => v / 30))).length = pos.length := by
      rw [normByMax_length, List.length_map]
    simp only [hfwlen, hposlen]
    by_cases hlt : pos.length < fw.length
    · obtain ⟨s, hs, -, -, -⟩ :=
        calculate_cross_correlation_arrays_spec (normByMax fw)
          (normByMax (pos.map (fun v => v / 30)))
          (by rw [hfwlen, hposlen]; omega)
      rw [if_pos hlt, hs]
      rfl
    · obtain ⟨s, hs, -, -, -⟩ :=
        calculate_cross_correlation_arrays_spec
          (normByMax (pos.map (fun v => v / 30))) (normByMax fw)
          (by rw [hfwlen, hposlen]; omega)
      rw [if_neg hlt, hs]
      rfl

/-- C10: the estimator needs `len target ≤ len reference`; then the shift is
in `[0, len reference - len target]`.  With the reference strictly shorter
the score list is empty and no minimum exists (`none`, NumPy's `ValueError`).
`match_flywheel_data` always hands the longer sequence to the estimator as
reference, so every one of its calls satisfies the precondition and the
matcher always produces masks. -/
theorem cross_correlation_precondition_and_matcher_safety :
    (∀ reference target : List ℝ, target.length ≤ reference.length →
      ∃ k, calculate_cross_correlation_arrays reference target = some k ∧
        k ≤ reference.length - target.length) ∧
    (∀ reference target : List ℝ, reference.length < target.length →
      calculate_cross_correlation_arrays reference target = none) ∧
    (∀ fw pos : List ℝ, (match_flywheel_data fw pos).isSome = true) := by
  refine ⟨?_, ?_, ?_⟩
  · intro reference target h
    obtain ⟨k, hk, hrange, -, -⟩ :=
      calculate_cross_correlation_arrays_spec reference target h
    exact ⟨k, hk, hrange⟩
  · intro reference target h
    exact calculate_cross_correlation_arrays_none reference target h
  · exact match_flywheel_data_isSome

/-- Closed instance of the safety statement: a valid call stays in range, a
reversed call yields no result, and the matcher is total on a sample pair. -/
theorem cross_correlation_precondition_and_matcher_safety_witness :
    (([(2 : ℝ), 3, 4] : List ℝ).length ≤ ([(1 : ℝ), 2, 3, 4, 5] : List ℝ).length ∧
      ∃ k, calculate_cross_correlation_arrays [(1 : ℝ), 2, 3, 4, 5] [(2 : ℝ), 3, 4] =
          some k ∧ k ≤ 2) ∧
    (([(1 : ℝ), 2] : List ℝ).length < ([(9 : ℝ), 9, 9] : List ℝ).length ∧
      calculate_cross_correlation_arrays [(1 : ℝ), 2] [(9 : ℝ), 9, 9] = none) ∧
    (match_flywheel_data [(1 : ℝ), 2] [(3 : ℝ)]).isSome = true := by
  refine ⟨⟨by decide, ?_⟩, ⟨by decide, ?_⟩, ?_⟩
  · simpa using
      cross_correlation_precondition_and_matcher_safety.1
        [(1 : ℝ), 2, 3, 4, 5] [(2 : ℝ), 3, 4] (by decide)
  · exact cross_correlation_precondition_and_matcher_safety.2.1
      [(1 : ℝ), 2] [(9 : ℝ), 9, 9] (by decide)
  · exact cross_correlation_precondition_and_matcher_safety.2.2 [(1 : ℝ), 2] [(3 : ℝ)]

/-- C8: whenever several shifts tie for the minimum sum-of-absolute-
differences score, the estimator returns the least such shift — all candidate
shifts are nonnegative, so the least tied shift is the one of smallest
magnitude.  (The returned shift also always attains the minimum score.) -/
theorem calculate_cross_correlation_arrays_tie_break (reference target : List ℝ)
    (h1 : 1 ≤ target.length) (h2 : target.length ≤ reference.length) :
    ∃ k, calculate_cross_correlation_arrays reference target = some k ∧
      (∀ j, j ≤ reference.length - target.length →
        shiftScore reference target k ≤ shiftScore reference target j) ∧
      (∀ j, j ≤ reference.length - target.length →
        shiftScore reference target j = shiftScore reference target k → k ≤ j) := by
  obtain ⟨k, hk, -, hmin, hfirst⟩ :=
    calculate_cross_correlation_arrays_spec reference target h2
  exact ⟨k, hk, hmin, hfirst⟩

/-- Closed instance of the tie-break theorem on `[1,2,1,2]` / `[1,2]`, a pair
on which the shifts 0 and 2 tie with score 0. -/
theorem calculate_cross_correlation_arrays_tie_break_witness :
    1 ≤ ([(1 : ℝ), 2] : List ℝ).length ∧
    ([(1 : ℝ), 2] : List ℝ).length ≤ ([(1 : ℝ), 2, 1, 2] : List ℝ).length ∧
    ∃ k, calculate_cross_correlation_arrays [(1 : ℝ), 2, 1, 2] [(1 : ℝ), 2] =
        some k ∧
      (∀ j, j ≤ 2 → shiftScore [(1 : ℝ), 2, 1, 2] [(1 : ℝ), 2] k ≤
        shiftScore [(1 : ℝ), 2, 1, 2] [(1 : ℝ), 2] j) ∧
      (∀ j, j ≤ 2 → shiftScore [(1 : ℝ), 2, 1, 2] [(1 : ℝ), 2] j =
        shiftScore [(1 : ℝ), 2, 1, 2] [(1 : ℝ), 2] k → k ≤ j) := by
  refine ⟨by decide, by decide, ?_⟩
  simpa using
    calculate_cross_correlation_arrays_tie_break [(1 : ℝ), 2, 1, 2] [(1 : ℝ), 2]
      (by decide) (by decide)

theorem argminIdx?_three (a b c : ℝ) (h1 : b < a) (h2 : b ≤ c) :
    argminIdx? [a, b, c] = some 1 := by
  simp only [argminIdx?, argminAux]
  rw [if_pos h1, if_neg (not_lt.2 h2)]

theorem meanR_ref : meanR [(1 : ℝ), 2, 3, 4, 5] = 3 := by
  norm_num [meanR]

theorem meanR_tgt : meanR [(2 : ℝ), 3, 4] = 3 := by
  norm_num [meanR]

theorem varR_ref : varR [(1 : ℝ), 2, 3, 4, 5] = 2 := by
  norm_num [varR, meanR]

theorem varR_tgt : varR [(2 : ℝ), 3, 4] = 2 / 3 := by
  norm_num [varR, meanR]

theorem sqrt_23_eq : Real.sqrt (2 / 3) = 2 / Real.sqrt 6 := by
  have h6 : (0 : ℝ) < Real.sqrt 6 := Real.sqrt_pos.2 (by norm_num)
  rw [eq_div_iff (ne_of_gt h6)]
  rw [← Real.sqrt_mul (by norm_num : (0 : ℝ) ≤ 2 / 3)]
  rw [show (2 / 3 : ℝ) * 6 = 4 by norm_num]
  rw [show (4 : ℝ) = 2 ^ 2 by norm_num, Real.sqrt_sq (by norm_num)]

theorem zscore_ref : zscoreList [(1 : ℝ), 2, 3, 4, 5] =
    [-Real.sqrt 2, -(Real.sqrt 2 / 2), 0, Real.sqrt 2 / 2, Real.sqrt 2] := by
  have h22 : Real.sqrt 2 * Real.sqrt 2 = 2 := Real.mul_self_sqrt (by norm_num)
  have h2 : (0 : ℝ) < Real.sqrt 2 := Real.sqrt_pos.2 (by norm_num)
  simp only [zscoreList, stdR, varR_ref, meanR_ref, List.map_cons, List.map_nil,
    List.cons.injEq, and_true]
  refine ⟨?_, ?_, ?_, ?_, ?_⟩ <;> rw [div_eq_iff (ne_of_gt h2)] <;> nlinarith [h22]

theorem zscore_tgt : zscoreList [(2 : ℝ), 3, 4] =
    [-(Real.sqrt 6 / 2), 0, Real.sqrt 6 / 2] := by
  have h66 : Real.sqrt 6 * Real.sqrt 6 = 6 := Real.mul_self_sqrt (by norm_num)
  have h6 : (0 : ℝ) < Real.sqrt 6 := Real.sqrt_pos.2 (by norm_num)
  simp only [zscoreList, stdR, varR_tgt, meanR_tgt, List.map_cons, List.map_nil,
    List.cons.injEq, and_true, sqrt_23_eq]
  refine ⟨?_, ?_, ?_⟩ <;> rw [div_div_eq_mul_div, div_eq_iff (by norm_num : (2 : ℝ) ≠ 0)] <;>
    nlinarith [h66]

theorem shiftScores_example : shiftScores [(1 : ℝ), 2, 3, 4, 5] [(2 : ℝ), 3, 4] =
    [shiftScore [(1 : ℝ), 2, 3, 4, 5] [(2 : ℝ), 3, 4] 0,
     shiftScore [(1 : ℝ), 2, 3, 4, 5] [(2 : ℝ), 3, 4] 1,
     shiftScore [(1 : ℝ), 2, 3, 4, 5] [(2 : ℝ), 3, 4] 2] := rfl

theorem sqrt_facts : (0 : ℝ) < Real.sqrt 2 ∧ (0 : ℝ) < Real.sqrt 6 ∧
    Real.sqrt 2 * Real.sqrt 2 = 2 ∧ Real.sqrt 6 * Real.sqrt 6 = 6 ∧
    Real.sqrt 2 ≤ Real.sqrt 6 ∧ Real.sqrt 6 / 2 ≤ Real.sqrt 2 := by
  have h2 : (0 : ℝ) < Real.sqrt 2 := Real.sqrt_pos.2 (by norm_num)
  have h6 : (0 : ℝ) < Real.sqrt 6 := Real.sqrt_pos.2 (by norm_num)
  have h22 : Real.sqrt 2 * Real.sqrt 2 = 2 := Real.mul_self_sqrt (by norm_num)
  have h66 : Real.sqrt 6 * Real.sqrt 6 = 6 := Real.mul_self_sqrt (by norm_num)
  have h26 : Real.sqrt 2 ≤ Real.sqrt 6 := Real.sqrt_le_sqrt (by norm_num)
  refine ⟨h2, h6, h22, h66, h26, by nlinarith⟩

theorem shiftScore_example_one_lt_zero :
    shiftScore [(1 : ℝ), 2, 3, 4, 5] [(2 : ℝ), 3, 4] 1 <
      shiftScore [(1 : ℝ), 2, 3, 4, 5] [(2 : ℝ), 3, 4] 0 := by
  obtain ⟨h2, h6, h22, h66, h26, ha⟩ := sqrt_facts
  rw [shiftScore, shiftScore, sadAt, sadAt, zscore_ref, zscore_tgt]
  simp only [List.length_cons, List.length_nil, List.drop, List.take,
    List.zipWith, List.sum_cons, List.sum_nil]
  rw [abs_of_nonneg (by linarith : (0 : ℝ) ≤ -(Real.sqrt 2 / 2) - -(Real.sqrt 6 / 2)),
      abs_of_nonpos (by linarith : Real.sqrt 2 / 2 - Real.sqrt 6 / 2 ≤ (0 : ℝ)),
      abs_of_nonpos (by linarith : -Real.sqrt 2 - -(Real.sqrt 6 / 2) ≤ (0 : ℝ)),
      abs_of_nonpos (by linarith : -(Real.sqrt 2 / 2) - 0 ≤ (0 : ℝ)),
      abs_of_nonpos (by linarith : (0 : ℝ) - Real.sqrt 6 / 2 ≤ 0)]
  simp only [sub_zero, zero_sub, sub_self, abs_zero]
  nlinarith

theorem shiftScore_example_one_le_two :
    shiftScore [(1 : ℝ), 2, 3, 4, 5] [(2 : ℝ), 3, 4] 1 ≤
      shiftScore [(1 : ℝ), 2, 3, 4, 5] [(2 : ℝ), 3, 4] 2 := by
  obtain ⟨h2, h6, h22, h66, h26, ha⟩ := sqrt_facts
  rw [shiftScore, shiftScore, sadAt, sadAt, zscore_ref, zscore_tgt]
  simp only [List.length_cons, List.length_nil, List.drop, List.take,
    List.zipWith, List.sum_cons, List.sum_nil]
  rw [abs_of_nonneg (by linarith : (0 : ℝ) ≤ -(Real.sqrt 2 / 2) - -(Real.sqrt 6 / 2)),
      abs_of_nonpos (by linarith : Real.sqrt 2 / 2 - Real.sqrt 6 / 2 ≤ (0 : ℝ)),
      abs_of_nonneg (by linarith : (0 : ℝ) ≤ (0 : ℝ) - -(Real.sqrt 6 / 2)),
      abs_of_nonneg (by linarith : (0 : ℝ) ≤ Real.sqrt 2 / 2 - 0),
      abs_of_nonneg (by linarith : (0 : ℝ) ≤ Real.sqrt 2 - Real.sqrt 6 / 2)]
  simp only [sub_zero, zero_sub, sub_self, abs_zero]
  nlinarith

theorem calculate_cross_correlation_arrays_example :
    calculate_cross_correlation_arrays [(1 : ℝ), 2, 3, 4, 5] [(2 : ℝ), 3, 4] =
      some 1 := by
  rw [calculate_cross_correlation_arrays, shiftScores_example]
  exact argminIdx?_three _ _ _ shiftScore_example_one_lt_zero shiftScore_example_one_le_two

/-- C1: for `len reference ≥ len target ≥ 1` the estimator z-scores both
sequences, scores all `L - S + 1` alignments by sum of absolute differences,
and returns a shift attaining the minimum score; on reference `[1,2,3,4,5]`
and target `[2,3,4]` the result is `1`. -/
theorem cross_correlation_minimizes_sad :
    (∀ reference target : List ℝ, 1 ≤ target.length →
      target.length ≤ reference.length →
      ∃ k, calculate_cross_correlation_arrays reference target = some k ∧
        k ≤ reference.length - target.length ∧
        ∀ j, j ≤ reference.length - target.length →
          shiftScore reference target k ≤ shiftScore reference target j) ∧
    calculate_cross_correlation_arrays [(1 : ℝ), 2, 3, 4, 5] [(2 : ℝ), 3, 4] =
      some 1 := by
  constructor
  · intro reference target h1 h2
    obtain ⟨k, hk, hrange, hmin, -⟩ :=
      calculate_cross_correlation_arrays_spec reference target h2
    exact ⟨k, hk, hrange, hmin⟩
  · exact calculate_cross_correlation_arrays_example

/-- Closed instance of the minimization statement at the spec's example. -/
theorem cross_correlation_minimizes_sad_witness :
    1 ≤ ([(2 : ℝ), 3, 4] : List ℝ).length ∧
    ([(2 : ℝ), 3, 4] : List ℝ).length ≤ ([(1 : ℝ), 2, 3, 4, 5] : List ℝ).length ∧
    ∃ k, calculate_cross_correlation_arrays [(1 : ℝ), 2, 3, 4, 5] [(2 : ℝ), 3, 4] =
        some k ∧ k ≤ 2 ∧
      ∀ j, j ≤ 2 → shiftScore [(1 : ℝ), 2, 3, 4, 5] [(2 : ℝ), 3, 4] k ≤
        shiftScore [(1 : ℝ), 2, 3, 4, 5] [(2 : ℝ), 3, 4] j := by
  refine ⟨by decide, by decide, ?_⟩
  simpa using cross_correlation_minimizes_sad.1 [(1 : ℝ), 2, 3, 4, 5] [(2 : ℝ), 3, 4]
    (by decide) (by decide)

/-- Inner scan of scipy's `_local_maxima_1d` (the implementation behind
`scipy.signal.find_peaks`): starting at `j = i + 1`, advance over the plateau
of samples equal to `x[i]` while `j < i_max`.  `fuel` bounds the loop; all
call sites supply enough fuel for the scan to finish on its own. -/
def plateauAux (x : List ℝ) (iMax : ℕ) (v : ℝ) : ℕ → ℕ → ℕ
  | 0, j => j
  | fuel + 1, j =>
    if j < iMax ∧ x.getD j 0 = v then plateauAux x iMax v fuel (j + 1) else j

/-- Outer loop of scipy's `_local_maxima_1d`, over `i` from 1 to
`i_max - 1`: when `x[i-1] < x[i]` and the plateau of `x[i]` is followed by a
strictly smaller sample, record the plateau midpoint
`(left_edge + right_edge) // 2` and resume after the plateau; otherwise step
by one. -/
def lmAux (x : List ℝ) (iMax : ℕ) : ℕ → ℕ → List ℕ
  | 0, _ => []
  | fuel + 1, i =>
    if i < iMax then
      if x.getD (i - 1) 0 < x.getD i 0 then
        let ia := plateauAux x iMax (x.getD i 0) x.length (i + 1)
        if x.getD ia 0 < x.getD i 0 then
          (i + (ia - 1)) / 2 :: lmAux x iMax fuel (ia + 1)
        else lmAux x iMax fuel (i + 1)
      else lmAux x iMax fuel (i + 1)
    else []

/-- `scipy.signal._local_maxima_1d(x)`: interior local maxima (plateau
midpoints), scanned with `i_max = len(x) - 1`. -/
def local_maxima_1d (x : List ℝ) : List ℕ := lmAux x (x.length - 1) x.length 1

/-- `scipy.signal.find_peaks(x, height=0)[0]`: local maxima whose sample
value is at least the minimum height 0. -/
def find_peaks (x : List ℝ) : List ℕ :=
  (local_maxima_1d x).filter (fun p => decide (0 ≤ x.getD p 0))

/-- `peaks = [0] + list(peaks) + [len(joint_data) - 1]` of
`segment_exercises_based_on_joint`. -/
def boundaryPeaks (x : List ℝ) : List ℕ := 0 :: (find_peaks x ++ [x.length - 1])

/-- The candidate-validation loop of `segment_exercises_based_on_joint` over
the adjacent boundary pairs `zip(peaks, peaks[1:])`.  The observation is the
slice `joint_data[t1:t2]`; a candidate is skipped when `np.std(observation) <
100 or t2 - t1 < min_duration` (the nonemptiness guard models that
`np.std([])` is NaN and NaN `< 100` is `False`); otherwise the DTW cost of
exemplar against observation and the pair itself are appended. -/
def segmentLoop (cost : List ℝ → List ℝ → ℝ) (joint_data exemplar : List ℝ)
    (min_duration : ℤ) : List (ℕ × ℕ) → List (ℕ × ℕ) × List ℝ
  | [] => ([], [])
  | (t1, t2) :: rest =>
    let observation := (joint_data.drop t1).take (t2 - t1)
    if (observation ≠ [] ∧ stdR observation < 100) ∨
        ((t2 : ℤ) - (t1 : ℤ) < min_duration) then
      segmentLoop cost joint_data exemplar min_duration rest
    else
      let res := segmentLoop cost joint_data exemplar min_duration rest
      ((t1, t2) :: res.1, cost exemplar observation :: res.2)

/-- `segment_exercises_based_on_joint` (src/processing/segmentation.py,
lines 9–55), with the external `fastdtw`-based `calculate_fast_dtw_cost`
abstracted as the parameter `cost` (its value never influences which
candidates are kept).  The source also computes `np.std(exemplar)` into an
unused local; it is omitted here. -/
def segment_exercises_based_on_joint (cost : List ℝ → List ℝ → ℝ)
    (joint_data exemplar : List ℝ) (min_duration : ℤ) :
    List (ℕ × ℕ) × List ℝ :=
  segmentLoop cost joint_data exemplar min_duration
    ((boundaryPeaks joint_data).zip (boundaryPeaks joint_data).tail)

theorem segmentLoop_lengths (cost : List ℝ → List ℝ → ℝ)
    (joint_data exemplar : List ℝ) (min_duration : ℤ) (ps : List (ℕ × ℕ)) :
    (segmentLoop cost joint_data exemplar min_duration ps).2.length =
      (segmentLoop cost joint_data exemplar min_duration ps).1.length := by
  induction ps with
  | nil => rfl
  | cons p rest ih =>
      obtain ⟨t1, t2⟩ := p
      rw [segmentLoop]
      split
      · exact ih
      · simpa using ih

theorem segmentLoop_sublist (cost : List ℝ → List ℝ → ℝ)
    (joint_data exemplar : List ℝ) (min_duration : ℤ) (ps : List (ℕ × ℕ)) :
    (segmentLoop cost joint_data exemplar min_duration ps).1.Sublist ps := by
  induction ps with
  | nil => exact List.Sublist.refl _
  | cons p rest ih =>
      obtain ⟨t1, t2⟩ := p
      rw [segmentLoop]
      split
      · exact ih.cons _
      · exact ih.cons₂ _

theorem segmentLoop_mem (cost : List ℝ → List ℝ → ℝ)
    (joint_data exemplar : List ℝ) (min_duration : ℤ) (ps : List (ℕ × ℕ))
    (p : ℕ × ℕ) (hp : p ∈ (segmentLoop cost joint_data exemplar min_duration ps).1) :
    ¬ ((((joint_data.drop p.1).take (p.2 - p.1) ≠ [] ∧
          stdR ((joint_data.drop p.1).take (p.2 - p.1)) < 100) ∨
        ((p.2 : ℤ) - (p.1 : ℤ) < min_duration))) := by
  induction ps with
  | nil => simp [segmentLoop] at hp
  | cons q rest ih =>
      obtain ⟨t1, t2⟩ := q
      rw [segmentLoop] at hp
      split at hp
      · exact ih hp
      next hcond =>
        rcases List.mem_cons.1 hp with rfl | hp'
        · simpa using hcond
        · exact ih hp'

theorem plateauAux_ge (x : List ℝ) (iMax : ℕ) (v : ℝ) :
    ∀ (fuel j : ℕ), j ≤ plateauAux x iMax v fuel j := by
  intro fuel
  induction fuel with
  | zero => intro j; exact le_refl j
  | succ fuel ih =>
      intro j
      rw [plateauAux]
      split
      · exact le_trans (Nat.le_succ j) (ih (j + 1))
      · exact le_refl j

theorem plateauAux_le (x : List ℝ) (iMax : ℕ) (v : ℝ) :
    ∀ (fuel j : ℕ), j ≤ iMax → plateauAux x iMax v fuel j ≤ iMax := by
  intro fuel
  induction fuel with
  | zero => intro j hj; exact hj
  | succ fuel ih =>
      intro j hj
      rw [plateauAux]
      split
      next hcond => exact ih (j + 1) hcond.1
      · exact hj

theorem lmAux_mem (x : List ℝ) (iMax : ℕ) :
    ∀ (fuel i : ℕ) (p : ℕ), p ∈ lmAux x iMax fuel i → i ≤ p ∧ p < iMax := by
  intro fuel
  induction fuel with
  | zero => intro i p hp; simp [lmAux] at hp
  | succ fuel ih =>
      intro i p hp
      rw [lmAux] at hp
      by_cases hi : i < iMax
      · rw [if_pos hi] at hp
        by_cases hrise : x.getD (i - 1) 0 < x.getD i 0
        · rw [if_pos hrise] at hp
          set ia := plateauAux x iMax (x.getD i 0) x.length (i + 1) with hia
          have hia_ge : i + 1 ≤ ia := plateauAux_ge x iMax _ x.length (i + 1)
          have hia_le : ia ≤ iMax := plateauAux_le x iMax _ x.length (i + 1) hi
          by_cases hfall : x.getD ia 0 < x.getD i 0
          · rw [if_pos hfall] at hp
            rcases List.mem_cons.1 hp with rfl | hp'
            · constructor
              · have h2i : 2 * i ≤ i + (ia - 1) := by omega
                exact (Nat.le_div_iff_mul_le (by norm_num)).2 (by omega)
              · have : i + (ia - 1) ≤ 2 * iMax - 2 := by omega
                omega
            · have := ih (ia + 1) p hp'
              exact ⟨by omega, this.2⟩
          · rw [if_neg hfall] at hp
            have := ih (i + 1) p hp
            exact ⟨by omega, this.2⟩
        · rw [if_neg hrise] at hp
          have := ih (i + 1) p hp
          exact ⟨by omega, this.2⟩
      · rw [if_neg hi] at hp
        simp at hp

theorem lmAux_sorted (x : List ℝ) (iMax : ℕ) :
    ∀ (fuel i : ℕ), List.Sorted (· < ·) (lmAux x iMax fuel i) := by
  intro fuel
  induction fuel with
  | zero => intro i; simp [lmAux]
  | succ fuel ih =>
      intro i
      rw [lmAux]
      by_cases hi : i < iMax
      · rw [if_pos hi]
        by_cases hrise : x.getD (i - 1) 0 < x.getD i 0
        · rw [if_pos hrise]
          set ia := plateauAux x iMax (x.getD i 0) x.length (i + 1) with hia
          have hia_ge : i + 1 ≤ ia := plateauAux_ge x iMax _ x.length (i + 1)
          by_cases hfall : x.getD ia 0 < x.getD i 0
          · rw [if_pos hfall]
            rw [List.sorted_cons]
            refine ⟨?_, ih (ia + 1)⟩
            intro b hb
            have hble := lmAux_mem x iMax fuel (ia + 1) b hb
            have hmid : (i + (ia - 1)) / 2 ≤ ia - 1 := by
              have : i + (ia - 1) ≤ 2 * (ia - 1) := by omega
              omega
            omega
          · rw [if_neg hfall]
            exact ih (i + 1)
        · rw [if_neg hrise]
          exact ih (i + 1)
      · rw [if_neg hi]
        simp

theorem find_peaks_sorted (x : List ℝ) : List.Sorted (· < ·) (find_peaks x) :=
  List.Pairwise.filter _ (lmAux_sorted x (x.length - 1) x.length 1)

theorem find_peaks_mem (x : List ℝ) (p : ℕ) (hp : p ∈ find_peaks x) :
    1 ≤ p ∧ p < x.length - 1 := by
  have hp' : p ∈ local_maxima_1d x := List.mem_of_mem_filter hp
  exact lmAux_mem x (x.length - 1) x.length 1 p hp'

theorem boundaryPeaks_sorted (x : List ℝ) (h : 2 ≤ x.length) :
    List.Sorted (· < ·) (boundaryPeaks x) := by
  rw [boundaryPeaks, List.sorted_cons]
  constructor
  · intro b hb
    rcases List.mem_append.1 hb with hb' | hb'
    · exact lt_of_lt_of_le Nat.zero_lt_one (find_peaks_mem x b hb').1
    · simp at hb'
      omega
  · refine List.pairwise_append.2 ⟨find_peaks_sorted x, List.sorted_singleton _, ?_⟩
    intro a ha b hb
    simp at hb
    have := find_peaks_mem x a ha
    omega

theorem boundaryPeaks_mem_le (x : List ℝ) (p : ℕ) (hp : p ∈ boundaryPeaks x) :
    p ≤ x.length - 1 := by
  rw [boundaryPeaks] at hp
  rcases List.mem_cons.1 hp with rfl | hp'
  · exact Nat.zero_le _
  · rcases List.mem_append.1 hp' with hb | hb
    · have := find_peaks_mem x p hb
      omega
    · simp at hb
      omega

theorem zip_tail_fst_lt :
    ∀ (l : List ℕ), List.Sorted (· < ·) l → ∀ p ∈ l.zip l.tail, p.1 < p.2 := by
  intro l
  induction l with
  | nil => intro _ p hp; simp at hp
  | cons a l ih =>
      intro hs p hp
      cases l with
      | nil => simp at hp
      | cons b t =>
          rw [List.sorted_cons] at hs
          rw [List.tail_cons, List.zip_cons_cons] at hp
          rcases List.mem_cons.1 hp with rfl | hp'
          · exact hs.1 b (List.mem_cons_self _ _)
          · exact ih hs.2 p hp'

theorem zip_tail_snd_mem :
    ∀ (l : List ℕ) (p : ℕ × ℕ), p ∈ l.zip l.tail → p.1 ∈ l ∧ p.2 ∈ l := by
  intro l p hp
  obtain ⟨h1, h2⟩ := List.mem_zip hp
  exact ⟨h1, List.mem_of_mem_tail h2⟩

theorem zip_tail_chain :
    ∀ (l : List ℕ), List.Sorted (· < ·) l →
      List.Pairwise (fun p q : ℕ × ℕ => p.2 ≤ q.1) (l.zip l.tail) := by
  intro l
  induction l with
  | nil => intro _; simp
  | cons a l ih =>
      intro hs
      cases l with
      | nil => simp
      | cons b t =>
          rw [List.sorted_cons] at hs
          rw [List.tail_cons, List.zip_cons_cons]
          refine List.Pairwise.cons ?_ (ih hs.2)
          intro q hq
          have hq1 : q.1 ∈ b :: t := (zip_tail_snd_mem _ q hq).1
          rcases List.mem_cons.1 hq1 with he | hmem
          · omega
          · have := (List.sorted_cons.1 hs.2).1 q.1 hmem
            omega

theorem lmAux_iMax_zero (x : List ℝ) : ∀ (fuel i : ℕ), lmAux x 0 fuel i = [] := by
  intro fuel i
  cases fuel with
  | zero => rfl
  | succ fuel => rw [lmAux, if_neg (Nat.not_lt_zero i)]

theorem find_peaks_short (x : List ℝ) (h : x.length ≤ 1) : find_peaks x = [] := by
  rw [find_peaks, local_maxima_1d, show x.length - 1 = 0 by omega, lmAux_iMax_zero]
  rfl

theorem segment_trivial_when_short (cost : List ℝ → List ℝ → ℝ)
    (joint_data exemplar : List ℝ) (min_duration : ℤ)
    (hlen : joint_data.length ≤ 1) (hmd : 1 ≤ min_duration) :
    segment_exercises_based_on_joint cost joint_data exemplar min_duration = ([], []) := by
  have hfp : find_peaks joint_data = [] := find_peaks_short _ hlen
  have hbp : boundaryPeaks joint_data = [0, 0] := by
    rw [boundaryPeaks, hfp, show joint_data.length - 1 = 0 by omega]
    rfl
  rw [segment_exercises_based_on_joint, hbp]
  show segmentLoop cost joint_data exemplar min_duration [(0, 0)] = ([], [])
  simp only [segmentLoop]
  rw [if_pos (Or.inr (by omega : ((0 : ℕ) : ℤ) - ((0 : ℕ) : ℤ) < min_duration))]

/-- C9: the accepted candidate intervals are genuine intervals
(`t1 < t2`), pairwise disjoint and ordered by increasing start, and exactly
one DTW cost is recorded per accepted candidate.  (For signals shorter than
2 samples this needs `1 ≤ min_duration`; in that degenerate case the
boundary pair collapses and the source would hand `fastdtw` an empty slice.) -/
theorem segment_candidates_wellformed (cost : List ℝ → List ℝ → ℝ)
    (joint_data exemplar : List ℝ) (min_duration : ℤ)
    (h : 2 ≤ joint_data.length ∨ 1 ≤ min_duration) :
    (∀ p ∈ (segment_exercises_based_on_joint cost joint_data exemplar min_duration).1,
      p.1 < p.2) ∧
    List.Pairwise (fun p q : ℕ × ℕ => p.2 ≤ q.1)
      (segment_exercises_based_on_joint cost joint_data exemplar min_duration).1 ∧
    (segment_exercises_based_on_joint cost joint_data exemplar min_duration).2.length =
      (segment_exercises_based_on_joint cost joint_data exemplar min_duration).1.length := by
  by_cases h2 : 2 ≤ joint_data.length
  · have hsorted := boundaryPeaks_sorted joint_data h2
    have hsub := segmentLoop_sublist cost joint_data exemplar min_duration
      ((boundaryPeaks joint_data).zip (boundaryPeaks joint_data).tail)
    refine ⟨?_, ?_, ?_⟩
    · intro p hp
      exact zip_tail_fst_lt _ hsorted p (hsub.subset hp)
    · exact List.Pairwise.sublist hsub (zip_tail_chain _ hsorted)
    · exact segmentLoop_lengths cost joint_data exemplar min_duration _
  · have hmd : 1 ≤ min_duration := by
      rcases h with h | h
      · omega
      · exact h
    have htriv := segment_trivial_when_short cost joint_data exemplar min_duration
      (by omega) hmd
    rw [htriv]
    simp

/-- C4 (amended): a candidate interval between adjacent peak boundaries is
accepted only if the standard deviation of its observation is at least the
absolute threshold `100` and its duration is at least `min_duration`; the
rejection test never consults the signal's global standard deviation (no
`std_dev_p` parameter exists on this function). -/
theorem segment_accepts_only_std_ge_100 (cost : List ℝ → List ℝ → ℝ)
    (joint_data exemplar : List ℝ) (min_duration : ℤ)
    (h2 : 2 ≤ joint_data.length) :
    ∀ p ∈ (segment_exercises_based_on_joint cost joint_data exemplar min_duration).1,
      100 ≤ stdR ((joint_data.drop p.1).take (p.2 - p.1)) ∧
      min_duration ≤ (p.2 : ℤ) - (p.1 : ℤ) := by
  intro p hp
  have hsub := segmentLoop_sublist cost joint_data exemplar min_duration
    ((boundaryPeaks joint_data).zip (boundaryPeaks joint_data).tail)
  have hzip := hsub.subset hp
  have hlt := zip_tail_fst_lt _ (boundaryPeaks_sorted _ h2) p hzip
  have hle : p.2 ≤ joint_data.length - 1 :=
    boundaryPeaks_mem_le _ _ ((zip_tail_snd_mem _ p hzip).2)
  have hnc := segmentLoop_mem cost joint_data exemplar min_duration _ p hp
  rcases not_or.1 hnc with ⟨hno1, hno2⟩
  have hobs : (joint_data.drop p.1).take (p.2 - p.1) ≠ [] := by
    intro hnil
    have hlen := congrArg List.length hnil
    simp [List.length_take, List.length_drop] at hlen
    omega
  constructor
  · rcases not_and_or.1 hno1 with hcase | hcase
    · exact absurd (not_not.1 hcase) hobs
    · exact le_of_not_lt hcase
  · exact le_of_not_lt hno2

theorem find_peaks_spike_example :
    find_peaks [(0 : ℝ), 300, 0, 10000, 0] = [1, 3] := by
  norm_num [find_peaks, local_maxima_1d, lmAux, plateauAux, List.getD]

theorem stdR_300_0 : stdR [(300 : ℝ), 0] = 150 := by
  rw [stdR, show varR [(300 : ℝ), 0] = 22500 by norm_num [varR, meanR],
      show (22500 : ℝ) = 150 ^ 2 by norm_num, Real.sqrt_sq (by norm_num)]

theorem segment_spike_candidates : (segment_exercises_based_on_joint (fun _ _ => 0)
    [(0 : ℝ), 300, 0, 10000, 0] [(0 : ℝ)] 1).1 = [(1, 3)] := by
  have hstd1 : stdR [(0 : ℝ)] = 0 := by norm_num [stdR, varR, meanR]
  have hstd3 : stdR [(10000 : ℝ)] = 0 := by norm_num [stdR, varR, meanR]
  rw [segment_exercises_based_on_joint, boundaryPeaks, find_peaks_spike_example]
  norm_num [segmentLoop, hstd1, stdR_300_0, hstd3]

/-- C4 counterexample: on the signal `[0, 300, 0, 10000, 0]` with
`min_duration = 1`, the interval `(1, 3)` is accepted as a candidate although
the standard deviation of its observation (150) is far below
`std_dev_p * global_std = 0.4 * std([0,300,0,10000,0]) ≈ 1588.7` and its
duration exceeds the minimum — rejection uses the absolute bound 100, not a
fraction of the global standard deviation. -/
theorem segment_std_dev_p_counterexample :
    (1, 3) ∈ (segment_exercises_based_on_joint (fun _ _ => 0)
        [(0 : ℝ), 300, 0, 10000, 0] [(0 : ℝ)] 1).1 ∧
    stdR ((([(0 : ℝ), 300, 0, 10000, 0] : List ℝ).drop 1).take 2) <
      (2 / 5) * stdR [(0 : ℝ), 300, 0, 10000, 0] ∧
    (1 : ℤ) ≤ (3 : ℤ) - (1 : ℤ) := by
  refine ⟨?_, ?_, by norm_num⟩
  · rw [segment_spike_candidates]
    exact List.mem_singleton.2 rfl
  · have hobs : (([(0 : ℝ), 300, 0, 10000, 0] : List ℝ).drop 1).take 2 =
        [(300 : ℝ), 0] := rfl
    rw [hobs, stdR_300_0, stdR, show varR [(0 : ℝ), 300, 0, 10000, 0] = 15774400 by
      norm_num [varR, meanR]]
    have h375 : (375 : ℝ) < Real.sqrt 15774400 := by
      rw [Real.lt_sqrt (by norm_num)]
      norm_num
    linarith

/-- Closed instance of the amended acceptance condition on the spike
signal. -/
theorem segment_accepts_only_std_ge_100_witness :
    2 ≤ ([(0 : ℝ), 300, 0, 10000, 0] : List ℝ).length ∧
    ∀ p ∈ (segment_exercises_based_on_joint (fun _ _ => 0)
        [(0 : ℝ), 300, 0, 10000, 0] [(0 : ℝ)] 1).1,
      100 ≤ stdR ((([(0 : ℝ), 300, 0, 10000, 0] : List ℝ).drop p.1).take (p.2 - p.1)) ∧
      (1 : ℤ) ≤ (p.2 : ℤ) - (p.1 : ℤ) :=
  ⟨by decide, segment_accepts_only_std_ge_100 (fun _ _ => 0)
    [(0 : ℝ), 300, 0, 10000, 0] [(0 : ℝ)] 1 (by decide)⟩

/-- C5 (amended): when the peak finder reports no interior peaks on a signal
of length at least 2, the segmenter still returns normally, and its candidate
list is either empty or exactly the single implicit whole-signal interval
`(0, len - 1)` contributed by the `[0] + peaks + [len - 1]` boundary
padding (with one DTW cost recorded for it). -/
theorem segment_zero_peaks_behavior (cost : List ℝ → List ℝ → ℝ)
    (joint_data exemplar : List ℝ) (min_duration : ℤ)
    (h2 : 2 ≤ joint_data.length) (hfp : find_peaks joint_data = []) :
    segment_exercises_based_on_joint cost joint_data exemplar min_duration = ([], []) ∨
    ∃ c, segment_exercises_based_on_joint cost joint_data exemplar min_duration =
      ([(0, joint_data.length - 1)], [c]) := by
  rw [segment_exercises_based_on_joint, boundaryPeaks, hfp]
  show (segmentLoop cost joint_data exemplar min_duration
        [(0, joint_data.length - 1)] = ([], [])) ∨ _
  by_cases hcond : (((joint_data.drop 0).take (joint_data.length - 1 - 0) ≠ [] ∧
      stdR ((joint_data.drop 0).take (joint_data.length - 1 - 0)) < 100) ∨
      ((joint_data.length - 1 : ℕ) : ℤ) - ((0 : ℕ) : ℤ) < min_duration)
  · left
    simp only [segmentLoop]
    rw [if_pos hcond]
  · right
    refine ⟨cost exemplar ((joint_data.drop 0).take (joint_data.length - 1 - 0)), ?_⟩
    simp only [segmentLoop]
    rw [if_neg hcond]

theorem find_peaks_ramp_example : find_peaks [(0 : ℝ), 300, 600] = [] := by
  norm_num [find_peaks, local_maxima_1d, lmAux, plateauAux, List.getD]

theorem stdR_0_300 : stdR [(0 : ℝ), 300] = 150 := by
  rw [stdR, show varR [(0 : ℝ), 300] = 22500 by norm_num [varR, meanR],
      show (22500 : ℝ) = 150 ^ 2 by norm_num, Real.sqrt_sq (by norm_num)]

/-- C5 counterexample: the strictly increasing signal `[0, 300, 600]` has no
interior peaks, yet the segmenter returns the nonempty candidate list
`[(0, 2)]` (the implicit whole-signal interval passes both validation
tests), not an empty sequence. -/
theorem segment_zero_peaks_counterexample :
    find_peaks [(0 : ℝ), 300, 600] = [] ∧
    (segment_exercises_based_on_joint (fun _ _ => 0)
      [(0 : ℝ), 300, 600] [(0 : ℝ)] 1).1 = [(0, 2)] := by
  refine ⟨find_peaks_ramp_example, ?_⟩
  rw [segment_exercises_based_on_joint, boundaryPeaks, find_peaks_ramp_example]
  norm_num [segmentLoop, stdR_0_300]

/-- Closed instance of the zero-peak behavior on the ramp signal. -/
theorem segment_zero_peaks_behavior_witness :
    2 ≤ ([(0 : ℝ), 300, 600] : List ℝ).length ∧
    find_peaks [(0 : ℝ), 300, 600] = [] ∧
    (segment_exercises_based_on_joint (fun _ _ => 0)
        [(0 : ℝ), 300, 600] [(0 : ℝ)] 1 = ([], []) ∨
      ∃ c, segment_exercises_based_on_joint (fun _ _ => 0)
        [(0 : ℝ), 300, 600] [(0 : ℝ)] 1 = ([(0, 2)], [c])) := by
  refine ⟨by decide, find_peaks_ramp_example, ?_⟩
  simpa using segment_zero_peaks_behavior (fun _ _ => 0) [(0 : ℝ), 300, 600]
    [(0 : ℝ)] 1 (by decide) find_peaks_ramp_example

/-- C6 (amended): a signal shorter than 2 samples does not make the
segmenter fail — there is no `InsufficientDataError` anywhere in the code —
it returns the empty candidate and cost lists (given a positive minimum
duration, which every caller uses). -/
theorem segment_short_signal_returns_empty (cost : List ℝ → List ℝ → ℝ)
    (joint_data exemplar : List ℝ) (min_duration : ℤ)
    (hlen : joint_data.length < 2) (hmd : 1 ≤ min_duration) :
    segment_exercises_based_on_joint cost joint_data exemplar min_duration =
      ([], []) :=
  segment_trivial_when_short cost joint_data exemplar min_duration (by omega) hmd

/-- C6 counterexample: on the one-sample signal `[5]` the segmenter returns
the result `([], [])` instead of failing. -/
theorem segment_short_signal_counterexample :
    segment_exercises_based_on_joint (fun _ _ => 0) [(5 : ℝ)] [(0 : ℝ)] 1 =
      ([], []) := by
  rw [segment_exercises_based_on_joint, boundaryPeaks,
    find_peaks_short [(5 : ℝ)] (by decide)]
  show segmentLoop _ _ _ _ [(0, 0)] = ([], [])
  simp only [segmentLoop]
  rw [if_pos (Or.inr (by omega : ((0 : ℕ) : ℤ) - ((0 : ℕ) : ℤ) < 1))]

/-- Closed instance of the short-signal behavior on the empty signal. -/
theorem segment_short_signal_returns_empty_witness :
    ([] : List ℝ).length < 2 ∧ (1 : ℤ) ≤ 1 ∧
    segment_exercises_based_on_joint (fun _ _ => 0) ([] : List ℝ) [(0 : ℝ)] 1 =
      ([], []) :=
  ⟨by decide, by decide,
    segment_short_signal_returns_empty (fun _ _ => 0) [] [(0 : ℝ)] 1
      (by decide) (by decide)⟩

/-- Closed instance of the candidate-invariant statement on a two-sample
signal. -/
theorem segment_candidates_wellformed_witness :
    (2 ≤ ([(0 : ℝ), 1] : List ℝ).length ∨ 1 ≤ (1 : ℤ)) ∧
    ((∀ p ∈ (segment_exercises_based_on_joint (fun _ _ => 0)
        [(0 : ℝ), 1] [(0 : ℝ)] 1).1, p.1 < p.2) ∧
      List.Pairwise (fun p q : ℕ × ℕ => p.2 ≤ q.1)
        (segment_exercises_based_on_joint (fun _ _ => 0) [(0 : ℝ), 1] [(0 : ℝ)] 1).1 ∧
      (segment_exercises_based_on_joint (fun _ _ => 0) [(0 : ℝ), 1] [(0 : ℝ)] 1).2.length =
        (segment_exercises_based_on_joint (fun _ _ => 0) [(0 : ℝ), 1] [(0 : ℝ)] 1).1.length) :=
  ⟨Or.inl (by decide), segment_candidates_wellformed (fun _ _ => 0)
    [(0 : ℝ), 1] [(0 : ℝ)] 1 (Or.inl (by decide))⟩

/-- One trial as the assembler sees it: identity (subject, set id) plus its
per-device payload, the dictionary yielded by `iterate_segmented_data`. -/
structure Trial (β : Type) where
  subject : String
  set_id : ℕ
  data : β

/-- `prepare_segmented_data_for_ml` (data_processing.py, lines 230–277):
the per-trial body (feature extraction, imputation, flywheel matching,
horizontal concatenation — all inside the `try`) is the parameter `process`,
which either produces the trial's feature rows or fails like a raised
exception.  The assembler appends the rows of successful trials to the
accumulated table and, on failure, logs `(subject, set_id, error)` and moves
on; the final table is returned (written out) unconditionally. -/
def prepare_segmented_data_for_ml {α β : Type}
    (process : Trial β → Except String (List α)) (trials : List (Trial β)) :
    List α × List (String × ℕ × String) :=
  trials.foldl
    (fun acc trial =>
      match process trial with
      | .ok rows => (acc.1 ++ rows, acc.2)
      | .error e => (acc.1, acc.2 ++ [(trial.subject, trial.set_id, e)]))
    ([], [])

theorem prepare_segmented_data_foldl {α β : Type}
    (process : Trial β → Except String (List α)) :
    ∀ (trials : List (Trial β)) (acc : List α × List (String × ℕ × String)),
      trials.foldl
        (fun acc trial =>
          match process trial with
          | .ok rows => (acc.1 ++ rows, acc.2)
          | .error e => (acc.1, acc.2 ++ [(trial.subject, trial.set_id, e)]))
        acc =
      (acc.1 ++ (trials.map (fun t =>
          match process t with
          | .ok rows => rows
          | .error _ => [])).join,
       acc.2 ++ trials.filterMap (fun t =>
          match process t with
          | .error e => some (t.subject, t.set_id, e)
          | .ok _ => none)) := by
  intro trials
  induction trials with
  | nil => intro acc; simp
  | cons t ts ih =>
      intro acc
      rw [List.foldl_cons]
      cases hp : process t with
      | ok rows =>
          simp only [hp]
          rw [ih]
          simp [hp]
      | error e =>
          simp only [hp]
          rw [ih]
          simp [hp]

/-- C7: a failing trial is contained at the assembler boundary — the output
table is exactly the concatenation, in order, of the rows of the trials whose
processing succeeded (a failed trial contributes nothing, every other
trial's rows survive), each failure is logged with the trial's subject and
set identity, and the table is produced for every input batch. -/
theorem prepare_segmented_data_isolates_failures {α β : Type}
    (process : Trial β → Except String (List α)) (trials : List (Trial β)) :
    prepare_segmented_data_for_ml process trials =
      ((trials.map (fun t =>
          match process t with
          | .ok rows => rows
          | .error _ => [])).join,
       trials.filterMap (fun t =>
          match process t with
          | .error e => some (t.subject, t.set_id, e)
          | .ok _ => none)) := by
  rw [prepare_segmented_data_for_ml, prepare_segmented_data_foldl]
  simp
